import Mathlib

set_option maxHeartbeats 1000000

/-!
Verification development for the bank-statement extractor (src/app.py).

The core under study is the Response Normalizer `parse_llm_response`
(src/app.py lines 153-199) together with the Text Extractor
`convert_pdf_to_structured_text_advanced` (lines 30-76).  Strings are
embedded as `List Char`; the Python regular-expression searches used by the
source are embedded as direct scanners implementing the leftmost,
non-overlapping, greedy semantics of `re.findall` / `re.sub` for the exact
patterns appearing in the source; `json.loads` is embedded as a recursive
descent parser for the JSON grammar accepted by Python's `json` module
(including its `NaN` / `Infinity` extensions), with JSON numbers kept as
their source tokens.
-/

namespace BankExtractor

/-- The left brace character, written by code point. -/
def lbrace : Char := Char.ofNat 123

/-- The right brace character, written by code point. -/
def rbrace : Char := Char.ofNat 125

/-- The backtick character, written by code point. -/
def backtick : Char := Char.ofNat 96

/-- Characters matched by the regex class `\s` in the source's `str`
patterns, restricted to the ASCII range (Python's `\s` additionally matches
some rarer Unicode whitespace, which this embedding does not model). -/
def isWs (c : Char) : Bool :=
  c == ' ' || c == '\t' || c == '\n' || c == '\r' || c == '\x0B' || c == '\x0C'

/-- Characters matched by the regex class `[ \t]` (src/app.py line 67). -/
def isSpaceTab (c : Char) : Bool :=
  c == ' ' || c == '\t'

/-- Helper for the `re.sub(r'\n\s*\n', '\n\n', ...)` pass: given the text
following a `'\n'`, if the maximal `\s`-run at its front contains a `'\n'`
then return everything after the last such `'\n'` (the remainder of the
input once the greedy match is consumed), bundled with a length bound. -/
def splitNl : (l : List Char) → Option { r : List Char // r.length < l.length }
  | [] => none
  | c :: cs =>
    if isWs c then
      match splitNl cs with
      | some ⟨r, h⟩ => some ⟨r, Nat.lt_succ_of_lt h⟩
      | none => if c = '\n' then some ⟨cs, Nat.lt_succ_self _⟩ else none
    else none

/-- `splitNl` without the length bound, for stating lemmas. -/
def splitNlP (l : List Char) : Option (List Char) :=
  (splitNl l).map Subtype.val

/-- `re.sub(r'\n\s*\n', '\n\n', page_text)` (src/app.py line 66): each
leftmost, greedy match of a newline followed by a whitespace run containing
another newline is replaced by exactly one blank line. -/
def collapseBlankLines : List Char → List Char
  | [] => []
  | c :: cs =>
    if c = '\n' then
      match splitNl cs with
      | some ⟨r, _⟩ => '\n' :: '\n' :: collapseBlankLines r
      | none => c :: collapseBlankLines cs
    else c :: collapseBlankLines cs
termination_by l => l.length
decreasing_by
  · simp only [List.length_cons]
    omega
  · simp only [List.length_cons]
    omega
  · simp only [List.length_cons]
    omega

/-- `re.sub(r'[ \t]+', ' ', page_text)` (src/app.py line 67): each maximal
run of spaces and tabs is replaced by a single space. -/
def collapseSpaces : List Char → List Char
  | [] => []
  | c :: cs =>
    if isSpaceTab c then ' ' :: collapseSpaces (cs.dropWhile isSpaceTab)
    else c :: collapseSpaces cs
termination_by l => l.length
decreasing_by
  · have := (List.dropWhile_sublist (l := cs) (p := isSpaceTab)).length_le
    simp only [List.length_cons]
    omega
  · simp only [List.length_cons]
    omega

/-- The per-page whitespace normalization of src/app.py lines 66-67: first
collapse blank-line runs, then collapse horizontal whitespace runs. -/
def normalizeWs (l : List Char) : List Char :=
  collapseSpaces (collapseBlankLines l)

/-! ## The greedy bracket scan (strategy 1)

The source finds candidates with
`re.findall(r'\[(?:[^[\]]*(?:\[[^\]]*\])?)*\]', model_output, re.DOTALL)`
(src/app.py line 160).  At any given start position this pattern has at
most one match, found by the following two-state scan: outside a nested
group, a `']'` ends the match and a `'['` opens a (one-level) group; inside
a group every character except `']'` is consumed and `']'` closes the
group.  Running off the end of the input means no match at this start, and
the search resumes one character later, exactly as `re.findall` does. -/

/-- Scanner for a single candidate of the bracket pattern: `inside` says
whether the scan is inside a one-level nested group, `acc` holds the
consumed characters in reverse.  Returns the full match (brackets
included) and the remaining input, or `none` if the input ends first. -/
def candGo : List Char → Bool → List Char → Option (List Char × List Char)
  | [], _, _ => none
  | c :: cs, true, acc =>
    if c = ']' then candGo cs false (c :: acc) else candGo cs true (c :: acc)
  | c :: cs, false, acc =>
    if c = ']' then some ((c :: acc).reverse, cs)
    else if c = '[' then candGo cs true (c :: acc)
    else candGo cs false (c :: acc)

/-- Fuelled driver for the candidate search.  Every recursive call strictly
shrinks the input list (on a successful match the remainder returned by
`candGo` is a strict suffix), so fuel equal to the input length never runs
out and the function computes exactly the non-overlapping leftmost match
list of `re.findall`. -/
def findCandsAux : Nat → List Char → List (List Char)
  | 0, _ => []
  | _ + 1, [] => []
  | fuel + 1, c :: cs =>
    if c = '[' then
      match candGo cs false [c] with
      | some (m, rest) => m :: findCandsAux fuel rest
      | none => findCandsAux fuel cs
    else findCandsAux fuel cs

/-- All candidates produced by the greedy bracket scan of src/app.py
line 160, in order of appearance. -/
def findCandidates (l : List Char) : List (List Char) :=
  findCandsAux l.length l

/-! ## The code-block pattern (strategy 2)

src/app.py line 175 defines `code_block_pattern = r'``````'`: the pattern
is the literal string of six backticks (no capture group), so
`re.findall` returns one entry, equal to that six-backtick string, per
non-overlapping occurrence. -/

/-- The literal six-backtick string that line 175's pattern matches. -/
def fence6 : List Char := List.replicate 6 backtick

/-- Fuelled scan for non-overlapping occurrences of the literal
six-backtick pattern; fuel equal to the input length never runs out. -/
def findFencesAux : Nat → List Char → List (List Char)
  | 0, _ => []
  | _ + 1, [] => []
  | fuel + 1, c :: cs =>
    if c = backtick && cs.take 5 = List.replicate 5 backtick then
      fence6 :: findFencesAux fuel (cs.drop 5)
    else findFencesAux fuel cs

/-- All matches of the code-block pattern of src/app.py line 175. -/
def findFences (l : List Char) : List (List Char) :=
  findFencesAux l.length l

/-! ## The quoted-literal salvage (strategy 3) -/

/-- Split the input at the first `'"'`: returns the characters before it
and the remainder after it.  This is the capture of `"([^"]*)"` once the
opening quote has been consumed. -/
def splitAtQuote : List Char → Option (List Char × List Char)
  | [] => none
  | c :: cs =>
    if c = '"' then some ([], cs)
    else
      match splitAtQuote cs with
      | some (b, r) => some (c :: b, r)
      | none => none

/-- Fuelled driver for `re.findall(r'"([^"]*)"', model_output)`
(src/app.py line 189); fuel equal to the input length never runs out. -/
def quotedAux : Nat → List Char → List (List Char)
  | 0, _ => []
  | _ + 1, [] => []
  | fuel + 1, c :: cs =>
    if c = '"' then
      match splitAtQuote cs with
      | some (b, rest) => b :: quotedAux fuel rest
      | none => []
    else quotedAux fuel cs

/-- All double-quoted substrings of the input, in order of appearance. -/
def quotedItems (l : List Char) : List (List Char) :=
  quotedAux l.length l

/-! ## `json.loads`

Values as produced by Python's `json.loads`, except that JSON numbers are
kept as their source tokens instead of being converted to int/float (the
claims only ever distinguish numbers from strings, never compare two
numbers) and objects are kept as field lists. -/

inductive JsonVal where
  | jstr : String → JsonVal
  | jnum : String → JsonVal
  | jbool : Bool → JsonVal
  | jnull : JsonVal
  | jarr : List JsonVal → JsonVal
  | jobj : List (String × JsonVal) → JsonVal

/-- Is the value a (Python) string? -/
def isJStr : JsonVal → Bool
  | .jstr _ => true
  | _ => false

/-- Whitespace skipped between JSON tokens (`json`'s `[ \t\n\r]*`). -/
def isJsonWs (c : Char) : Bool :=
  c == ' ' || c == '\t' || c == '\n' || c == '\r'

/-- Skip inter-token whitespace. -/
def skipJWs (l : List Char) : List Char :=
  l.dropWhile isJsonWs

/-- Value of one hex digit. -/
def hexDigitVal (c : Char) : Option Nat :=
  if '0' ≤ c ∧ c ≤ '9' then some (c.toNat - '0'.toNat)
  else if 'a' ≤ c ∧ c ≤ 'f' then some (c.toNat - 'a'.toNat + 10)
  else if 'A' ≤ c ∧ c ≤ 'F' then some (c.toNat - 'A'.toNat + 10)
  else none

/-- Parse exactly four hex digits. -/
def parseHex4 : List Char → Option (Nat × List Char)
  | a :: b :: c :: d :: r => do
    let x ← hexDigitVal a
    let y ← hexDigitVal b
    let z ← hexDigitVal c
    let w ← hexDigitVal d
    some ((((x * 16 + y) * 16 + z) * 16 + w), r)
  | _ => none

/-- Body of a JSON string literal, after the opening quote: strict-mode
parsing (unescaped control characters are rejected), with the standard
escapes and `\uXXXX`, combining surrogate pairs.  A lone surrogate, which
Python would keep as an unpaired surrogate code unit, is not representable
as a `Char` and is modelled as U+FFFD.  Fuel equal to the input length
plus one never runs out since every step consumes input. -/
def jstrAux : Nat → List Char → Option (List Char × List Char)
  | 0, _ => none
  | _ + 1, [] => none
  | fuel + 1, c :: r =>
    if c = '"' then some ([], r)
    else if c = '\\' then
      match r with
      | [] => none
      | e :: r1 =>
        if e = '"' then (jstrAux fuel r1).map fun p => ('"' :: p.1, p.2)
        else if e = '\\' then (jstrAux fuel r1).map fun p => ('\\' :: p.1, p.2)
        else if e = '/' then (jstrAux fuel r1).map fun p => ('/' :: p.1, p.2)
        else if e = 'b' then (jstrAux fuel r1).map fun p => ('\x08' :: p.1, p.2)
        else if e = 'f' then (jstrAux fuel r1).map fun p => ('\x0C' :: p.1, p.2)
        else if e = 'n' then (jstrAux fuel r1).map fun p => ('\n' :: p.1, p.2)
        else if e = 'r' then (jstrAux fuel r1).map fun p => ('\r' :: p.1, p.2)
        else if e = 't' then (jstrAux fuel r1).map fun p => ('\t' :: p.1, p.2)
        else if e = 'u' then
          match parseHex4 r1 with
          | none => none
          | some (n, r2) =>
            if 0xD800 ≤ n ∧ n < 0xDC00 then
              match r2 with
              | '\\' :: 'u' :: r3 =>
                match parseHex4 r3 with
                | some (m, r4) =>
                  if 0xDC00 ≤ m ∧ m < 0xE000 then
                    (jstrAux fuel r4).map fun p =>
                      (Char.ofNat (0x10000 + (n - 0xD800) * 0x400 + (m - 0xDC00)) :: p.1, p.2)
                  else (jstrAux fuel r2).map fun p => (Char.ofNat 0xFFFD :: p.1, p.2)
                | none => (jstrAux fuel r2).map fun p => (Char.ofNat 0xFFFD :: p.1, p.2)
              | _ => (jstrAux fuel r2).map fun p => (Char.ofNat 0xFFFD :: p.1, p.2)
            else if 0xDC00 ≤ n ∧ n < 0xE000 then
              (jstrAux fuel r2).map fun p => (Char.ofNat 0xFFFD :: p.1, p.2)
            else (jstrAux fuel r2).map fun p => (Char.ofNat n :: p.1, p.2)
        else none
    else if c.toNat < 32 then none
    else (jstrAux fuel r).map fun p => (c :: p.1, p.2)

/-- Leading decimal digits and the remainder. -/
def digitsOf (l : List Char) : List Char × List Char :=
  (l.takeWhile Char.isDigit, l.dropWhile Char.isDigit)

/-- Integer part of a JSON number: `0` or a nonzero digit followed by
digits (leading zeros are not accepted, as in Python's `NUMBER_RE`). -/
def parseIntPart : List Char → Option (List Char × List Char)
  | [] => none
  | '0' :: r => some (['0'], r)
  | c :: r =>
    if c.isDigit then
      let (ds, r1) := digitsOf r
      some (c :: ds, r1)
    else none

/-- Optional fraction part `\.\d+`; consumed only when complete. -/
def parseFrac : List Char → List Char × List Char
  | '.' :: r =>
    let (ds, r1) := digitsOf r
    if ds.isEmpty then ([], '.' :: r) else ('.' :: ds, r1)
  | l => ([], l)

/-- Optional exponent part `[eE][-+]?\d+`; consumed only when complete. -/
def parseExp : List Char → List Char × List Char
  | [] => ([], [])
  | c :: r =>
    if c = 'e' ∨ c = 'E' then
      match r with
      | [] => ([], [c])
      | s :: r2 =>
        if s = '+' ∨ s = '-' then
          let (ds, r3) := digitsOf r2
          if ds.isEmpty then ([], c :: r) else (c :: s :: ds, r3)
        else
          let (ds, r3) := digitsOf r
          if ds.isEmpty then ([], c :: r) else (c :: ds, r3)
    else ([], c :: r)

/-- A JSON number token (Python's `NUMBER_RE`), kept as its source text. -/
def parseNumber (l : List Char) : Option (JsonVal × List Char) :=
  let (sign, l1) := match l with
    | '-' :: r => (['-'], r)
    | _ => (([] : List Char), l)
  match parseIntPart l1 with
  | none => none
  | some (ip, l2) =>
    let (fp, l3) := parseFrac l2
    let (ep, l4) := parseExp l3
    some (.jnum (String.mk (sign ++ ip ++ fp ++ ep)), l4)

mutual

/-- One JSON value at the current position (no leading-whitespace skip, as
in Python's `scan_once`).  Fuel `2 * length + 2` never runs out: at most
two fuel units are spent per consumed character. -/
def parseVal : Nat → List Char → Option (JsonVal × List Char)
  | 0, _ => none
  | _ + 1, [] => none
  | fuel + 1, c :: r =>
    if c = '"' then
      (jstrAux (r.length + 1) r).map fun p => (.jstr (String.mk p.1), p.2)
    else if c = '[' then
      match skipJWs r with
      | ']' :: r2 => some (.jarr [], r2)
      | r1 => parseArrElems fuel r1 []
    else if c = lbrace then
      match skipJWs r with
      | [] => none
      | c2 :: r2 =>
        if c2 = rbrace then some (.jobj [], r2)
        else parseObjFields fuel (c2 :: r2) []
    else
      match c :: r with
      | 't' :: 'r' :: 'u' :: 'e' :: r2 => some (.jbool true, r2)
      | 'f' :: 'a' :: 'l' :: 's' :: 'e' :: r2 => some (.jbool false, r2)
      | 'n' :: 'u' :: 'l' :: 'l' :: r2 => some (.jnull, r2)
      | 'N' :: 'a' :: 'N' :: r2 => some (.jnum "NaN", r2)
      | 'I' :: 'n' :: 'f' :: 'i' :: 'n' :: 'i' :: 't' :: 'y' :: r2 =>
        some (.jnum "Infinity", r2)
      | '-' :: 'I' :: 'n' :: 'f' :: 'i' :: 'n' :: 'i' :: 't' :: 'y' :: r2 =>
        some (.jnum "-Infinity", r2)
      | l => parseNumber l

/-- Elements of a JSON array after the first element's position. -/
def parseArrElems : Nat → List Char → List JsonVal → Option (JsonVal × List Char)
  | 0, _, _ => none
  | fuel + 1, l, acc =>
    match parseVal fuel l with
    | none => none
    | some (v, r) =>
      match skipJWs r with
      | ']' :: r2 => some (.jarr (acc ++ [v]), r2)
      | ',' :: r2 => parseArrElems fuel (skipJWs r2) (acc ++ [v])
      | _ => none

/-- Members of a JSON object, positioned at a `'"'` starting a key. -/
def parseObjFields : Nat → List Char → List (String × JsonVal) →
    Option (JsonVal × List Char)
  | 0, _, _ => none
  | fuel + 1, l, acc =>
    match l with
    | '"' :: r =>
      match jstrAux (r.length + 1) r with
      | none => none
      | some (k, r1) =>
        match skipJWs r1 with
        | ':' :: r2 =>
          match parseVal fuel (skipJWs r2) with
          | none => none
          | some (v, r3) =>
            match skipJWs r3 with
            | c4 :: r4 =>
              if c4 = rbrace then some (.jobj (acc ++ [(String.mk k, v)]), r4)
              else if c4 = ',' then
                parseObjFields fuel (skipJWs r4) (acc ++ [(String.mk k, v)])
              else none
            | [] => none
        | _ => none
    | _ => none

end

/-- `json.loads` on the candidate string: skip leading whitespace, parse
one value, require only whitespace to remain; any failure is the
`JSONDecodeError` branch, embedded as `none`. -/
def jsonLoads (l : List Char) : Option JsonVal :=
  match parseVal (2 * l.length + 2) (skipJWs l) with
  | some (v, r) => if (skipJWs r).isEmpty then some v else none
  | none => none

/-! ## The fallback chain of `parse_llm_response` -/

/-- The acceptance test applied to each candidate in strategies 1 and 2
(src/app.py lines 164-169 and 178-184): `json.loads` succeeds, the result
is a list, and its length is exactly 9. -/
def tryParse9 (cand : List Char) : Option (List JsonVal) :=
  match jsonLoads cand with
  | some (.jarr xs) => if xs.length = 9 then some xs else none
  | _ => none

/-- First candidate accepted by `tryParse9`, in order. -/
def firstValid9 : List (List Char) → Option (List JsonVal)
  | [] => none
  | c :: rest =>
    match tryParse9 c with
    | some a => some a
    | none => firstValid9 rest

/-- The Response Normalizer `parse_llm_response` (src/app.py lines
153-199).  Method 1: first bracket-scan candidate that JSON-parses to a
9-element list.  Method 2: same test over the matches of the code-block
pattern.  Method 3: if at least 9 double-quoted substrings occur, the
first 9 of them.  Otherwise the all-"N/A" sentinel.  Methods 3 and 4
return Python strings, embedded as `jstr` values. -/
def parse_llm_response (model_output : List Char) : List JsonVal :=
  match firstValid9 (findCandidates model_output) with
  | some arr => arr
  | none =>
    match firstValid9 (findFences model_output) with
    | some arr => arr
    | none =>
      let quoted_items := quotedItems model_output
      if 9 ≤ quoted_items.length then
        (quoted_items.take 9).map (fun b => JsonVal.jstr (String.mk b))
      else
        List.replicate 9 (JsonVal.jstr "N/A")

/-! ## The Text Extractor `convert_pdf_to_structured_text_advanced`

The PyMuPDF calls are external; they are embedded as an oracle recording
what each library call would return or raise.  Each fallible call is an
`Except String`, the error message standing for the exception text. -/

/-- A Python value as far as the block test of src/app.py line 58 cares:
a string or anything else. -/
inductive PyVal where
  | pstr : List Char → PyVal
  | pother : PyVal

/-- What the library returns for one page: the (unused) result of
`page.get_text("dict")`, the block list of `page.get_text("blocks")`
(each block a Python tuple, embedded as a list of values), and the plain
`page.get_text()` result. -/
structure PageO where
  textDict : Except String Unit
  blocks : Except String (List (List PyVal))
  rawText : Except String (List Char)

/-- Outcome of `fitz.open(stream=..., filetype="pdf")` (together with the
preceding `seek`/`read`): an exception, or the list of pages. -/
inductive OpenO where
  | failed : String → OpenO
  | opened : List PageO → OpenO

/-- Text contributed by one block (src/app.py lines 57-59): its fifth
component followed by a newline when the tuple has at least five
components and that component is a string, nothing otherwise. -/
def blockText (b : List PyVal) : List Char :=
  if 5 ≤ b.length then
    match b.get? 4 with
    | some (.pstr s) => s ++ ['\n']
    | _ => []
  else []

/-- Lines 52-67 for a single page: query the dict form (result unused,
exceptions propagate), assemble the block text, fall back to
`page.get_text()` when the block text strips to empty, then normalize
whitespace. -/
def pageBody (p : PageO) : Except String (List Char) := do
  let _ ← p.textDict
  let bs ← p.blocks
  let t0 := bs.foldl (fun acc b => acc ++ blockText b) []
  let t1 ← if t0.all isWs then p.rawText else pure t0
  pure (normalizeWs t1)

/-- The page marker `f"--- PAGE n ---\n"` of src/app.py line 69. -/
def pageMarker (n : Nat) : List Char :=
  ("--- PAGE " ++ toString n ++ " ---").data ++ ['\n']

/-- The page loop of src/app.py lines 48-69, pages numbered from 1 in the
markers; the first exception aborts the whole loop. -/
def buildPages : List PageO → Nat → Except String (List Char)
  | [], _ => .ok []
  | p :: ps, n => do
    let t ← pageBody p
    let rest ← buildPages ps (n + 1)
    pure (pageMarker n ++ t ++ ['\n', '\n'] ++ rest)

/-- Everything inside the `try` of src/app.py lines 38-72. -/
def runBody : OpenO → Except String (List Char)
  | .failed m => .error m
  | .opened pages => buildPages pages 1

/-- `convert_pdf_to_structured_text_advanced` (src/app.py lines 30-76).
The input is `None`-or-oracle for the uploaded file; the result is the
returned text together with the list of messages shown via `st.error`
(lines 74-76 catch every exception, display it, and return `""`). -/
def convert_pdf_to_structured_text_advanced (pdf_file : Option OpenO) :
    List Char × List String :=
  match pdf_file with
  | none => ([], [])
  | some o =>
    match runBody o with
    | .ok t => (t, [])
    | .error m => ([], ["Error processing PDF: " ++ m])

/-! ## Concrete inputs used by witnesses and counterexamples -/

/-- A raw output that is a 9-element JSON array of bare numbers. -/
def numArrayInput : List Char := "[1,2,3,4,5,6,7,8,9]".data

/-- The spec's own first-valid-wins example: a wrong-arity candidate
followed by a valid 9-element candidate. -/
def twoCandsInput : List Char :=
  ("Here: [1,2,3] and the real one [\"Chase\",\"John Doe\",\"N/A\",\"N/A\"," ++
   "\"N/A\",\"N/A\",\"N/A\",\"N/A\",\"N/A\"]").data

/-- The array values of the second candidate of `twoCandsInput`. -/
def chaseArr : List JsonVal :=
  [.jstr "Chase", .jstr "John Doe", .jstr "N/A", .jstr "N/A", .jstr "N/A",
   .jstr "N/A", .jstr "N/A", .jstr "N/A", .jstr "N/A"]

/-- A three-backtick markdown fence delimiter. -/
def tick3 : List Char := List.replicate 3 backtick

/-- The content of the fenced block in `fencedInput`: a valid 9-element
JSON array whose first element contains a `']'`, so the greedy bracket
scan cannot recover it. -/
def fencedContent : List Char := "[\"a]b\",1,2,3,4,5,6,7,8]".data

/-- Raw output whose only valid 9-element array sits inside a markdown
code fence and is invisible to the bracket scan. -/
def fencedInput : List Char :=
  "Result:\n".data ++ tick3 ++ "json\n".data ++ fencedContent ++ "\n".data ++ tick3

/-- A well-formed 9-element array whose second element is a nested array. -/
def nestedArrayInput : List Char :=
  "[\"a\",[1,2],\"c\",\"d\",\"e\",\"f\",\"g\",\"h\",\"i\"]".data

/-- A valid 9-element array with a bare JSON number at position 6. -/
def bareNumberInput : List Char :=
  "[\"A\",\"B\",\"C\",\"D\",\"E\",\"F\",1500.50,\"H\",\"I\"]".data

/-- Raw output with no array at all but ten double-quoted substrings. -/
def quotedOnlyInput : List Char :=
  "words \"a\" \"b\" \"c\" \"d\" \"e\" \"f\" \"g\" \"h\" \"i\" \"j\" end".data

/-- Raw output with no array and only one quoted substring. -/
def proseInput : List Char := "The model \"refused\" to answer.".data

/-! ## Shared lemmas about the fallback chain -/

/-- Strategies 1 and 2 only ever accept a 9-element parse. -/
theorem tryParse9_length (c : List Char) (xs : List JsonVal)
    (h : tryParse9 c = some xs) : xs.length = 9 := by
  unfold tryParse9 at h
  split at h
  · split at h
    · injection h with h2
      subst h2
      assumption
    · exact absurd h (by simp)
  · exact absurd h (by simp)

/-- Whatever candidate list is offered, a successful first-valid search
returns a 9-element list. -/
theorem firstValid9_length (cs : List (List Char)) (xs : List JsonVal)
    (h : firstValid9 cs = some xs) : xs.length = 9 := by
  induction cs with
  | nil => simp [firstValid9] at h
  | cons c rest ih =>
    unfold firstValid9 at h
    cases ht : tryParse9 c with
    | some a =>
      rw [ht] at h
      injection h with h2
      subst h2
      exact tryParse9_length c _ ht
    | none =>
      rw [ht] at h
      exact ih h

/-- Every return path of `parse_llm_response` yields exactly 9 elements. -/
theorem parse_llm_response_length (s : List Char) :
    (parse_llm_response s).length = 9 := by
  unfold parse_llm_response
  cases h1 : firstValid9 (findCandidates s) with
  | some arr => simpa using firstValid9_length _ _ h1
  | none =>
    cases h2 : firstValid9 (findFences s) with
    | some arr => simpa using firstValid9_length _ _ h2
    | none =>
      by_cases hq : 9 ≤ (quotedItems s).length
      · simp only [hq, if_true, List.length_map, List.length_take]
        omega
      · simp [hq]

/-- The first-valid search returns the first accepted candidate. -/
theorem firstValid9_of_first (cs : List (List Char)) (i : Nat)
    (hi : i < cs.length) (arr : List JsonVal)
    (harr : tryParse9 (cs.get ⟨i, hi⟩) = some arr)
    (hbefore : (cs.take i).all (fun c => (tryParse9 c).isNone) = true) :
    firstValid9 cs = some arr := by
  induction cs generalizing i with
  | nil => exact absurd hi (by simp)
  | cons c rest ih =>
    cases i with
    | zero =>
      simp only [List.get] at harr
      unfold firstValid9
      rw [harr]
    | succ k =>
      simp only [List.take_succ_cons, List.all_cons, Bool.and_eq_true,
        Option.isNone_iff_eq_none] at hbefore
      unfold firstValid9
      rw [hbefore.1]
      exact ih k (by simpa using hi) (by simpa using harr) hbefore.2

/-- Every match of the code-block pattern is the six-backtick literal. -/
theorem mem_findFencesAux (fuel : Nat) (l t : List Char)
    (h : t ∈ findFencesAux fuel l) : t = fence6 := by
  induction fuel generalizing l with
  | zero => simp [findFencesAux] at h
  | succ n ih =>
    cases l with
    | nil => simp [findFencesAux] at h
    | cons c cs =>
      unfold findFencesAux at h
      split at h
      · rcases List.mem_cons.mp h with h1 | h2
        · exact h1
        · exact ih _ h2
      · exact ih _ h

/-- A candidate list none of whose entries is accepted yields `none`. -/
theorem firstValid9_none_of_all (ts : List (List Char))
    (h : ∀ t ∈ ts, tryParse9 t = none) : firstValid9 ts = none := by
  induction ts with
  | nil => rfl
  | cons c rest ih =>
    unfold firstValid9
    rw [h c (by simp)]
    exact ih fun t ht => h t (by simp [ht])

/-! ## Whitespace-normalization lemmas (towards C10)

Step equations for `splitNlP`, `collapseBlankLines` and `collapseSpaces`,
then the facts leading to idempotence of `normalizeWs`. -/

theorem isWs_nl : isWs '\n' = true := rfl

theorem isWs_sp : isWs ' ' = true := rfl

theorem splitNlP_nil : splitNlP [] = none := rfl

theorem splitNlP_cons_not_ws (c : Char) (cs : List Char) (h : isWs c = false) :
    splitNlP (c :: cs) = none := by
  simp [splitNlP, splitNl, h]

theorem splitNlP_cons_ws_some (c : Char) (cs r : List Char)
    (hw : isWs c = true) (h : splitNlP cs = some r) :
    splitNlP (c :: cs) = some r := by
  unfold splitNlP at h ⊢
  cases hs : splitNl cs with
  | none => rw [hs] at h; simp at h
  | some p =>
    rw [hs] at h
    simp only [Option.map_some'] at h
    simp [splitNl, hw, hs, h]

theorem splitNlP_cons_nl_none (cs : List Char) (h : splitNlP cs = none) :
    splitNlP ('\n' :: cs) = some cs := by
  unfold splitNlP at h ⊢
  cases hs : splitNl cs with
  | none => simp [splitNl, hs, isWs_nl]
  | some p => rw [hs] at h; simp at h

theorem splitNlP_cons_ws_none (c : Char) (cs : List Char)
    (hw : isWs c = true) (hc : c ≠ '\n') (h : splitNlP cs = none) :
    splitNlP (c :: cs) = none := by
  unfold splitNlP at h ⊢
  cases hs : splitNl cs with
  | none => simp [splitNl, hw, hs, hc]
  | some p => rw [hs] at h; simp at h

theorem splitNlP_cons_ws_none_inv (c : Char) (cs : List Char)
    (hw : isWs c = true) (h : splitNlP (c :: cs) = none) :
    splitNlP cs = none ∧ c ≠ '\n' := by
  unfold splitNlP at h ⊢
  cases hs : splitNl cs with
  | some p => simp [splitNl, hw, hs] at h
  | none =>
    refine ⟨rfl, fun hc => ?_⟩
    subst hc
    simp [splitNl, hs, isWs_nl] at h

theorem splitNlP_length (l r : List Char) (h : splitNlP l = some r) :
    r.length < l.length := by
  unfold splitNlP at h
  cases hs : splitNl l with
  | none => rw [hs] at h; simp at h
  | some p =>
    rw [hs] at h
    simp only [Option.map_some'] at h
    injection h with h2
    subst h2
    exact p.property

theorem splitNlP_some_none (l r : List Char) (h : splitNlP l = some r) :
    splitNlP r = none := by
  induction l generalizing r with
  | nil => simp [splitNlP_nil] at h
  | cons c cs ih =>
    cases hw : isWs c with
    | false => rw [splitNlP_cons_not_ws c cs hw] at h; simp at h
    | true =>
      cases hcs : splitNlP cs with
      | some r2 =>
        rw [splitNlP_cons_ws_some c cs r2 hw hcs] at h
        injection h with h2
        subst h2
        exact ih _ hcs
      | none =>
        by_cases hc : c = '\n'
        · subst hc
          rw [splitNlP_cons_nl_none cs hcs] at h
          injection h with h2
          subst h2
          exact hcs
        · rw [splitNlP_cons_ws_none c cs hw hc hcs] at h
          simp at h

theorem splitNlP_decomp (l r : List Char) (h : splitNlP l = some r) :
    ∃ p, (∀ x ∈ p, isWs x = true) ∧ l = p ++ '\n' :: r := by
  induction l generalizing r with
  | nil => simp [splitNlP_nil] at h
  | cons c cs ih =>
    cases hw : isWs c with
    | false => rw [splitNlP_cons_not_ws c cs hw] at h; simp at h
    | true =>
      cases hcs : splitNlP cs with
      | some r2 =>
        rw [splitNlP_cons_ws_some c cs r2 hw hcs] at h
        injection h with h2
        obtain ⟨p, hp, hdec⟩ := ih r2 hcs
        subst h2
        refine ⟨c :: p, ?_, by simp [hdec]⟩
        intro x hx
        rcases List.mem_cons.mp hx with h1 | h2
        · subst h1; exact hw
        · exact hp x h2
      | none =>
        by_cases hc : c = '\n'
        · subst hc
          rw [splitNlP_cons_nl_none cs hcs] at h
          injection h with h2
          subst h2
          exact ⟨[], by simp, rfl⟩
        · rw [splitNlP_cons_ws_none c cs hw hc hcs] at h
          simp at h

theorem cbl_nil : collapseBlankLines [] = [] := by
  rw [collapseBlankLines]

theorem cbl_cons_not_nl (c : Char) (cs : List Char) (h : ¬ c = '\n') :
    collapseBlankLines (c :: cs) = c :: collapseBlankLines cs := by
  rw [collapseBlankLines]
  simp [h]

theorem cbl_cons_nl_none (cs : List Char) (h : splitNlP cs = none) :
    collapseBlankLines ('\n' :: cs) = '\n' :: collapseBlankLines cs := by
  have hs : splitNl cs = none := by
    unfold splitNlP at h
    cases hs : splitNl cs with
    | none => rfl
    | some p => rw [hs] at h; simp at h
  rw [collapseBlankLines]
  simp [hs]

theorem cbl_cons_nl_some (cs r : List Char) (h : splitNlP cs = some r) :
    collapseBlankLines ('\n' :: cs) =
      '\n' :: '\n' :: collapseBlankLines r := by
  unfold splitNlP at h
  cases hs : splitNl cs with
  | none => rw [hs] at h; simp at h
  | some p =>
    rw [hs] at h
    simp only [Option.map_some'] at h
    injection h with h2
    obtain ⟨rv, hrv⟩ := p
    simp only at h2
    subst h2
    rw [collapseBlankLines]
    simp [hs]

theorem csp_nil : collapseSpaces [] = [] := by
  rw [collapseSpaces]

theorem csp_cons_st (c : Char) (cs : List Char) (h : isSpaceTab c = true) :
    collapseSpaces (c :: cs) =
      ' ' :: collapseSpaces (cs.dropWhile isSpaceTab) := by
  rw [collapseSpaces]
  simp [h]

theorem csp_cons_not_st (c : Char) (cs : List Char)
    (h : isSpaceTab c = false) :
    collapseSpaces (c :: cs) = c :: collapseSpaces cs := by
  rw [collapseSpaces]
  simp [h]

theorem isWs_of_st (c : Char) (h : isSpaceTab c = true) : isWs c = true := by
  simp only [isSpaceTab, Bool.or_eq_true, beq_iff_eq] at h
  rcases h with rfl | rfl <;> rfl

theorem st_ne_nl (c : Char) (h : isSpaceTab c = true) : c ≠ '\n' := by
  simp only [isSpaceTab, Bool.or_eq_true, beq_iff_eq] at h
  rcases h with rfl | rfl <;> decide

theorem not_ws_not_nl (c : Char) (h : isWs c = false) : c ≠ '\n' := by
  intro hc
  subst hc
  simp [isWs] at h

theorem not_ws_not_st (c : Char) (h : isWs c = false) :
    isSpaceTab c = false := by
  cases hst : isSpaceTab c with
  | false => rfl
  | true => rw [isWs_of_st c hst] at h; simp at h

theorem dropWhile_head_not (p : Char → Bool) (l : List Char) (d : Char)
    (ds : List Char) (h : l.dropWhile p = d :: ds) : p d = false := by
  induction l with
  | nil => simp at h
  | cons c cs ih =>
    cases hc : p c with
    | true =>
      rw [List.dropWhile_cons_of_pos (by simp [hc])] at h
      exact ih h
    | false =>
      rw [List.dropWhile_cons_of_neg (by simp [hc])] at h
      injection h with h1 _
      subst h1
      exact hc

theorem splitNlP_none_cbl (l : List Char) (h : splitNlP l = none) :
    splitNlP (collapseBlankLines l) = none := by
  induction l with
  | nil => rw [cbl_nil]; exact h
  | cons c cs ih =>
    cases hw : isWs c with
    | false =>
      rw [cbl_cons_not_nl c cs (not_ws_not_nl c hw)]
      exact splitNlP_cons_not_ws c _ hw
    | true =>
      obtain ⟨hcs, hc⟩ := splitNlP_cons_ws_none_inv c cs hw h
      rw [cbl_cons_not_nl c cs hc]
      exact splitNlP_cons_ws_none c _ hw hc (ih hcs)

theorem splitNlP_none_dropWhile (l : List Char) (h : splitNlP l = none) :
    splitNlP (l.dropWhile isSpaceTab) = none := by
  induction l with
  | nil => simpa using h
  | cons c cs ih =>
    cases hst : isSpaceTab c with
    | false =>
      rw [List.dropWhile_cons_of_neg (by simp [hst])]
      exact h
    | true =>
      obtain ⟨hcs, _⟩ :=
        splitNlP_cons_ws_none_inv c cs (isWs_of_st c hst) h
      rw [List.dropWhile_cons_of_pos (by simp [hst])]
      exact ih hcs

theorem splitNlP_none_csp_aux (n : Nat) : ∀ l : List Char, l.length ≤ n →
    splitNlP l = none → splitNlP (collapseSpaces l) = none := by
  induction n with
  | zero =>
    intro l hl h
    have : l = [] := List.length_eq_zero.mp (Nat.le_zero.mp hl)
    subst this
    rw [csp_nil]
    exact h
  | succ n ih =>
    intro l hl h
    match l with
    | [] => rw [csp_nil]; exact h
    | c :: cs =>
      have hlc : cs.length ≤ n := by
        simp only [List.length_cons] at hl
        omega
      cases hw : isWs c with
      | false =>
        rw [csp_cons_not_st c cs (not_ws_not_st c hw)]
        exact splitNlP_cons_not_ws c _ hw
      | true =>
        obtain ⟨hcs, hc⟩ := splitNlP_cons_ws_none_inv c cs hw h
        cases hst : isSpaceTab c with
        | true =>
          rw [csp_cons_st c cs hst]
          have hdw := splitNlP_none_dropWhile cs hcs
          have hldw : (cs.dropWhile isSpaceTab).length ≤ n :=
            le_trans (List.dropWhile_sublist _).length_le hlc
          exact splitNlP_cons_ws_none ' ' _ (by rfl) (by decide)
            (ih _ hldw hdw)
        | false =>
          rw [csp_cons_not_st c cs hst]
          exact splitNlP_cons_ws_none c _ hw hc (ih cs hlc hcs)

theorem splitNlP_none_csp (l : List Char) (h : splitNlP l = none) :
    splitNlP (collapseSpaces l) = none :=
  splitNlP_none_csp_aux l.length l (le_refl _) h

theorem cbl_length_le_aux (n : Nat) : ∀ l : List Char, l.length ≤ n →
    (collapseBlankLines l).length ≤ l.length := by
  induction n with
  | zero =>
    intro l hl
    have : l = [] := List.length_eq_zero.mp (Nat.le_zero.mp hl)
    subst this
    simp [cbl_nil]
  | succ n ih =>
    intro l hl
    match l with
    | [] => simp [cbl_nil]
    | c :: cs =>
      have hlc : cs.length ≤ n := by
        simp only [List.length_cons] at hl
        omega
      by_cases hc : c = '\n'
      · subst hc
        cases hs : splitNlP cs with
        | none =>
          rw [cbl_cons_nl_none cs hs]
          have := ih cs hlc
          simp only [List.length_cons]
          omega
        | some r =>
          rw [cbl_cons_nl_some cs r hs]
          have hr := splitNlP_length cs r hs
          have := ih r (by omega)
          simp only [List.length_cons]
          omega
      · rw [cbl_cons_not_nl c cs hc]
        have := ih cs hlc
        simp only [List.length_cons]
        omega

theorem cbl_length_le (l : List Char) :
    (collapseBlankLines l).length ≤ l.length :=
  cbl_length_le_aux l.length l (le_refl _)

theorem cbl_idem_aux (n : Nat) : ∀ l : List Char, l.length ≤ n →
    collapseBlankLines (collapseBlankLines l) = collapseBlankLines l := by
  induction n with
  | zero =>
    intro l hl
    have : l = [] := List.length_eq_zero.mp (Nat.le_zero.mp hl)
    subst this
    simp [cbl_nil]
  | succ n ih =>
    intro l hl
    match l with
    | [] => simp [cbl_nil]
    | c :: cs =>
      have hlc : cs.length ≤ n := by
        simp only [List.length_cons] at hl
        omega
      by_cases hc : c = '\n'
      · subst hc
        cases hs : splitNlP cs with
        | none =>
          rw [cbl_cons_nl_none cs hs]
          rw [cbl_cons_nl_none _ (splitNlP_none_cbl cs hs)]
          rw [ih cs hlc]
        | some r =>
          rw [cbl_cons_nl_some cs r hs]
          have h0 := splitNlP_some_none cs r hs
          have h1 := splitNlP_none_cbl r h0
          have h2 := splitNlP_cons_nl_none (collapseBlankLines r) h1
          rw [cbl_cons_nl_some ('\n' :: collapseBlankLines r)
            (collapseBlankLines r) h2]
          have hr := splitNlP_length cs r hs
          rw [ih r (by omega)]
      · rw [cbl_cons_not_nl c cs hc]
        rw [cbl_cons_not_nl c _ hc]
        rw [ih cs hlc]

theorem cbl_idem (l : List Char) :
    collapseBlankLines (collapseBlankLines l) = collapseBlankLines l :=
  cbl_idem_aux l.length l (le_refl _)

theorem cbl_fix_dropWhile (l : List Char)
    (h : collapseBlankLines l = l) :
    collapseBlankLines (l.dropWhile isSpaceTab) =
      l.dropWhile isSpaceTab := by
  induction l with
  | nil => simpa using h
  | cons c cs ih =>
    cases hst : isSpaceTab c with
    | false =>
      rw [List.dropWhile_cons_of_neg (by simp [hst])]
      exact h
    | true =>
      have hc : c ≠ '\n' := st_ne_nl c hst
      rw [cbl_cons_not_nl c cs hc] at h
      injection h with _ h2
      rw [List.dropWhile_cons_of_pos (by simp [hst])]
      exact ih h2

theorem cbl_fix_csp_aux (n : Nat) : ∀ l : List Char, l.length ≤ n →
    collapseBlankLines l = l →
    collapseBlankLines (collapseSpaces l) = collapseSpaces l := by
  induction n with
  | zero =>
    intro l hl _
    have : l = [] := List.length_eq_zero.mp (Nat.le_zero.mp hl)
    subst this
    simp [csp_nil, cbl_nil]
  | succ n ih =>
    intro l hl hfix
    match l with
    | [] => simp [csp_nil, cbl_nil]
    | c :: cs =>
      have hlc : cs.length ≤ n := by
        simp only [List.length_cons] at hl
        omega
      by_cases hc : c = '\n'
      · subst hc
        cases hs : splitNlP cs with
        | none =>
          rw [cbl_cons_nl_none cs hs] at hfix
          injection hfix with _ h2
          rw [csp_cons_not_st '\n' cs (by decide)]
          rw [cbl_cons_nl_none (collapseSpaces cs)
            (splitNlP_none_csp cs hs)]
          rw [ih cs hlc h2]
        | some r =>
          rw [cbl_cons_nl_some cs r hs] at hfix
          injection hfix with _ h2
          obtain ⟨p, _, hdec⟩ := splitNlP_decomp cs r hs
          have hlen1 : (collapseBlankLines r).length ≤ r.length :=
            cbl_length_le r
          have hlcs : cs.length = p.length + 1 + r.length := by
            simp [hdec]
            omega
          have hlcs2 : cs.length = 1 + (collapseBlankLines r).length := by
            rw [← h2]
            simp only [List.length_cons]
            omega
          have hp0 : p = [] := List.length_eq_zero.mp (by omega)
          subst hp0
          simp only [List.nil_append] at hdec
          have hr : collapseBlankLines r = r := by
            rw [hdec] at h2
            injection h2
          subst hdec
          have h0 := splitNlP_some_none ('\n' :: r) r hs
          rw [csp_cons_not_st '\n' _ (by decide)]
          rw [csp_cons_not_st '\n' _ (by decide)]
          have h6 := splitNlP_none_csp r h0
          have h7 := splitNlP_cons_nl_none (collapseSpaces r) h6
          rw [cbl_cons_nl_some ('\n' :: collapseSpaces r)
            (collapseSpaces r) h7]
          have hrl := splitNlP_length ('\n' :: r) r hs
          rw [ih r (by simp only [List.length_cons] at hlc ⊢; omega) hr]
      · rw [cbl_cons_not_nl c cs hc] at hfix
        injection hfix with _ h2
        cases hst : isSpaceTab c with
        | true =>
          rw [csp_cons_st c cs hst]
          have hdw := cbl_fix_dropWhile cs h2
          have hldw : (cs.dropWhile isSpaceTab).length ≤ n :=
            le_trans (List.dropWhile_sublist _).length_le hlc
          rw [cbl_cons_not_nl ' ' _ (by decide)]
          rw [ih (cs.dropWhile isSpaceTab) hldw hdw]
        | false =>
          rw [csp_cons_not_st c cs hst]
          rw [cbl_cons_not_nl c _ hc]
          rw [ih cs hlc h2]

theorem cbl_fix_csp (l : List Char) (h : collapseBlankLines l = l) :
    collapseBlankLines (collapseSpaces l) = collapseSpaces l :=
  cbl_fix_csp_aux l.length l (le_refl _) h

theorem csp_idem_aux (n : Nat) : ∀ l : List Char, l.length ≤ n →
    collapseSpaces (collapseSpaces l) = collapseSpaces l := by
  induction n with
  | zero =>
    intro l hl
    have : l = [] := List.length_eq_zero.mp (Nat.le_zero.mp hl)
    subst this
    simp [csp_nil]
  | succ n ih =>
    intro l hl
    match l with
    | [] => simp [csp_nil]
    | c :: cs =>
      have hlc : cs.length ≤ n := by
        simp only [List.length_cons] at hl
        omega
      cases hst : isSpaceTab c with
      | false =>
        rw [csp_cons_not_st c cs hst]
        rw [csp_cons_not_st c _ hst]
        rw [ih cs hlc]
      | true =>
        rw [csp_cons_st c cs hst]
        cases hdw : cs.dropWhile isSpaceTab with
        | nil =>
          rw [csp_nil]
          rw [csp_cons_st ' ' [] (by decide)]
          simp [csp_nil]
        | cons d ds =>
          have hd : isSpaceTab d = false := dropWhile_head_not _ cs d ds hdw
          have hlds : ds.length ≤ n := by
            have : (d :: ds).length ≤ cs.length := by
              rw [← hdw]
              exact (List.dropWhile_sublist _).length_le
            simp only [List.length_cons] at this
            omega
          rw [csp_cons_not_st d ds hd]
          rw [csp_cons_st ' ' (d :: collapseSpaces ds) (by decide)]
          rw [List.dropWhile_cons_of_neg (by simp [hd])]
          rw [csp_cons_not_st d _ hd]
          rw [ih ds hlds]

theorem csp_idem (l : List Char) :
    collapseSpaces (collapseSpaces l) = collapseSpaces l :=
  csp_idem_aux l.length l (le_refl _)

/-! ## Claim theorems -/

/-- C1, counterexample.  The claim says `parse_llm_response` always
returns a record of 9 *string* fields; on the raw output
`[1,2,3,4,5,6,7,8,9]` the code accepts the array as-is and every field is
a JSON number, not a string. -/
theorem claim_C1_counterexample :
    (parse_llm_response numArrayInput).all isJStr = false := by rfl

/-- C1, amended.  For every input string, `parse_llm_response` returns a
list of exactly 9 parsed JSON values — never null and never of variable
length — but the values are whatever `json.loads` produced and need not
be strings. -/
theorem claim_C1_amended (s : List Char) :
    (parse_llm_response s).length = 9 ∧ parse_llm_response s ≠ [] := by
  refine ⟨parse_llm_response_length s, fun h => ?_⟩
  have := parse_llm_response_length s
  rw [h] at this
  simp at this

/-- C2.  Among the bracket-scan candidates, the first one (in order of
appearance) that parses as a 9-element array is returned, even if later
candidates are also valid; earlier candidates that fail the parse or the
arity check are skipped with no truncation or padding. -/
theorem claim_C2 (s : List Char) (i : Nat)
    (hi : i < (findCandidates s).length) (arr : List JsonVal)
    (harr : tryParse9 ((findCandidates s).get ⟨i, hi⟩) = some arr)
    (hbefore : ((findCandidates s).take i).all
      (fun c => (tryParse9 c).isNone) = true) :
    parse_llm_response s = arr := by
  unfold parse_llm_response
  rw [firstValid9_of_first (findCandidates s) i hi arr harr hbefore]

/-- C2, witness: on the spec's example input the wrong-arity candidate
`[1,2,3]` is rejected and the later 9-element candidate is returned. -/
theorem claim_C2_witness : parse_llm_response twoCandsInput = chaseArr :=
  claim_C2 twoCandsInput 1 (by decide) chaseArr (by rfl) (by rfl)

/-- C3.  The claim says a code-fenced 9-element array is recovered by
strategy 2; but the pattern at src/app.py line 175 is the literal
six-backtick string, which never JSON-parses, so strategy 2 never
succeeds for any input.  On `fencedInput` — where the bracket scan sees
only the unparsable fragment and the fence holds a valid 9-element array
— the code falls through to the all-"N/A" sentinel instead of returning
the fenced values. -/
theorem claim_C3 :
    (∀ s : List Char, firstValid9 (findFences s) = none) ∧
    tryParse9 fencedContent =
      some [.jstr "a]b", .jnum "1", .jnum "2", .jnum "3", .jnum "4",
        .jnum "5", .jnum "6", .jnum "7", .jnum "8"] ∧
    parse_llm_response fencedInput = List.replicate 9 (JsonVal.jstr "N/A") := by
  refine ⟨fun s => ?_, by rfl, by rfl⟩
  exact firstValid9_none_of_all _ fun t ht => by
    rw [mem_findFencesAux _ _ _ ht]
    rfl

/-- C4, counterexample.  The claim says the strict strategies reject a
9-element array containing a nested array/object and fall through; the
code checks only `isinstance(arr, list) and len(arr) == 9`, so on
`nestedArrayInput` strategy 1 accepts the array, nested element and all
(a fall-through would have produced only strings). -/
theorem claim_C4_counterexample :
    parse_llm_response nestedArrayInput =
      [.jstr "a", .jarr [.jnum "1", .jnum "2"], .jstr "c", .jstr "d",
       .jstr "e", .jstr "f", .jstr "g", .jstr "h", .jstr "i"] ∧
    (parse_llm_response nestedArrayInput).all isJStr = false :=
  ⟨by rfl, by rfl⟩

/-- C4, amended.  The strict strategies accept any candidate that
`json.loads` turns into a list of exactly 9 elements; element types are
never inspected, so nested arrays and objects pass. -/
theorem claim_C4_amended (c : List Char) (xs : List JsonVal)
    (h : jsonLoads c = some (JsonVal.jarr xs)) (h9 : xs.length = 9) :
    tryParse9 c = some xs := by
  unfold tryParse9
  rw [h]
  simp [h9]

/-- C4, amended, witness: the nested-element array is accepted. -/
theorem claim_C4_amended_witness :
    tryParse9 nestedArrayInput =
      some [.jstr "a", .jarr [.jnum "1", .jnum "2"], .jstr "c", .jstr "d",
        .jstr "e", .jstr "f", .jstr "g", .jstr "h", .jstr "i"] :=
  claim_C4_amended nestedArrayInput
    [.jstr "a", .jarr [.jnum "1", .jnum "2"], .jstr "c", .jstr "d",
     .jstr "e", .jstr "f", .jstr "g", .jstr "h", .jstr "i"]
    (by rfl) (by rfl)

/-- C5, counterexample.  The claim says a bare number in a valid array is
returned as its decimal string form; the code does no coercion: on
`bareNumberInput` position 6 holds the parsed JSON number, not a
string. -/
theorem claim_C5_counterexample :
    (parse_llm_response bareNumberInput).get? 6 =
      some (JsonVal.jnum "1500.50") ∧
    isJStr ((parse_llm_response bareNumberInput).getD 6 JsonVal.jnull) =
      false :=
  ⟨by rfl, by rfl⟩

/-- C5, amended.  An array containing a bare number at some position is
accepted (not rejected), but that position of the result holds the JSON
number value itself, with no coercion to a string. -/
theorem claim_C5_amended :
    parse_llm_response bareNumberInput =
      [.jstr "A", .jstr "B", .jstr "C", .jstr "D", .jstr "E", .jstr "F",
       .jnum "1500.50", .jstr "H", .jstr "I"] := by rfl

/-- C6.  When strategies 1 and 2 find no valid 9-element array and the
input has at least 9 double-quoted substrings, the result is exactly the
first 9 quoted substrings, positionally in order of appearance, with no
validation beyond the count. -/
theorem claim_C6 (s : List Char)
    (h1 : firstValid9 (findCandidates s) = none)
    (h2 : firstValid9 (findFences s) = none)
    (hq : 9 ≤ (quotedItems s).length) :
    parse_llm_response s =
      ((quotedItems s).take 9).map (fun b => JsonVal.jstr (String.mk b)) := by
  unfold parse_llm_response
  rw [h1, h2]
  simp [hq]

/-- C6, witness: ten quoted substrings and no array anywhere. -/
theorem claim_C6_witness :
    parse_llm_response quotedOnlyInput =
      ((quotedItems quotedOnlyInput).take 9).map
        (fun b => JsonVal.jstr (String.mk b)) :=
  claim_C6 quotedOnlyInput (by rfl) (by rfl) (by decide)

/-- C7.  When no strategy finds a valid 9-element array and fewer than 9
quoted substrings exist, the all-"N/A" sentinel is returned (and, the
function being total, parse degradation is never surfaced as an error). -/
theorem claim_C7 (s : List Char)
    (h1 : firstValid9 (findCandidates s) = none)
    (h2 : firstValid9 (findFences s) = none)
    (hq : (quotedItems s).length < 9) :
    parse_llm_response s = List.replicate 9 (JsonVal.jstr "N/A") := by
  unfold parse_llm_response
  rw [h1, h2]
  simp [Nat.not_le.mpr hq]

/-- C7, witness: prose with a single quoted word yields the sentinel. -/
theorem claim_C7_witness :
    parse_llm_response proseInput = List.replicate 9 (JsonVal.jstr "N/A") :=
  claim_C7 proseInput (by rfl) (by rfl) (by decide)

/-- C8.  Every return path of `parse_llm_response` yields a list of
exactly 9 elements: strategies 1 and 2 only accept candidates whose
parsed length is 9, strategy 3 takes a 9-element slice, and the fallback
is a 9-element sentinel — while nothing constrains the element types, as
witnessed by an accepted all-number array. -/
theorem claim_C8 :
    (∀ s : List Char, (parse_llm_response s).length = 9) ∧
    (parse_llm_response numArrayInput).all isJStr = false :=
  ⟨parse_llm_response_length, by rfl⟩

/-- C9.  If opening the PDF fails or any per-page extraction call raises,
the whole `try` body fails, and `convert_pdf_to_structured_text_advanced`
fails soft: it returns the empty text, surfaces the exception text as a
user-visible error message, and (being a total function) never re-raises. -/
theorem claim_C9 (o : OpenO) (m : String)
    (h : runBody o = Except.error m) :
    convert_pdf_to_structured_text_advanced (some o) =
      ([], ["Error processing PDF: " ++ m]) := by
  simp only [convert_pdf_to_structured_text_advanced, h]

/-- C9, witness: a document whose first page's block extraction raises. -/
theorem claim_C9_witness :
    convert_pdf_to_structured_text_advanced
      (some (OpenO.opened
        [⟨Except.ok (), Except.error "cannot decode page", Except.ok []⟩])) =
      ([], ["Error processing PDF: " ++ "cannot decode page"]) :=
  claim_C9 _ "cannot decode page" (by rfl)

/-- C10.  The per-page whitespace normalization of src/app.py lines 66-67
(collapse blank-line runs, then collapse horizontal whitespace runs) is
idempotent: applying it twice gives the same result as applying it
once. -/
theorem claim_C10 (s : List Char) :
    normalizeWs (normalizeWs s) = normalizeWs s := by
  unfold normalizeWs
  rw [cbl_fix_csp (collapseBlankLines s) (cbl_idem s)]
  rw [csp_idem (collapseBlankLines s)]

end BankExtractor
